import Mathlib

/-!
Verification of the cargo_usage_rules aggregation-and-merge engine.

The Rust sources under src/ are shallowly embedded here:
  - Rust `String` / `&str` values become `List Char` (byte positions in the
    source `str::find` become character positions; every marker and separator
    involved is ASCII, so the two coincide on the inputs of interest).
  - The filesystem is an explicit state: a file is absent, unreadable, or
    readable with some content.  `fs::read_to_string(p).ok()` and
    `read_file_content` are modelled on that state.
  - Fallible Rust functions returning `anyhow::Result` become `Except String`.
  - `write_linked` performs directory creation and file copies; its effect is
    modelled as the list of filesystem operations it issues, in order, plus a
    small semantics `runOps` applying them to a path-indexed store.
-/

namespace CargoUsageRules

/-- Text models a Rust string as a list of characters. -/
abbrev Text := List Char

/-- The fixed start marker from aggregator.rs and writer.rs. -/
def startMarker : Text := "<!-- cargo-usage-rules-start -->".toList

/-- The fixed end marker from aggregator.rs and writer.rs. -/
def endMarker : Text := "<!-- cargo-usage-rules-end -->".toList

/-- A blank-line separator, the two-character string used pervasively
    in format strings of the source. -/
def nl2 : Text := ['\n', '\n']

/-- Left trim, as in the left half of Rust str::trim.  Rust trims Unicode
    whitespace; Char.isWhitespace covers space, tab, CR and LF, which agrees
    with Rust on all characters appearing in this development. -/
def ltrim (l : Text) : Text := l.dropWhile Char.isWhitespace

/-- Right trim, the right half of Rust str::trim. -/
def rtrim (l : Text) : Text := l.rdropWhile Char.isWhitespace

/-- Rust str::trim: whitespace removed from both ends. -/
def trim (l : Text) : Text := rtrim (ltrim l)

/-- Boolean test that pat occurs at the head of s (Rust str pattern matching
    at one position). -/
def leadMatch : Text → Text → Bool
  | [], _ => true
  | _ :: _, [] => false
  | a :: as, b :: bs => a == b && leadMatch as bs

/-- Index of the first occurrence of pat in s, as Rust str::find computes it
    (modulo bytes versus characters, which agree on ASCII patterns). -/
def firstOccur (pat : Text) : Text → Option Nat
  | [] => if pat.isEmpty then some 0 else none
  | c :: rest =>
      if leadMatch pat (c :: rest) then some 0
      else (firstOccur pat rest).map (· + 1)

/-- Number of (possibly overlapping) occurrences of pat in s; used to state
    that an output document holds exactly one generated section. -/
def countOccur (pat : Text) : Text → Nat
  | [] => if pat.isEmpty then 1 else 0
  | c :: rest =>
      (if leadMatch pat (c :: rest) then 1 else 0) + countOccur pat rest

/-- Substring test derived from firstOccur. -/
def containsSub (s pat : Text) : Bool := (firstOccur pat s).isSome

/-- State of one file on disk: missing, present but unreadable (for example
    invalid UTF-8 or permission denied), or readable with given content. -/
inductive FileState where
  | absent
  | unreadable
  | readable (content : Text)
deriving DecidableEq

/-- The filesystem seen through opaque path keys. -/
abbrev FS := String → FileState

/-- scanner.rs read_file_content: fs::read_to_string with an error context;
    it fails whenever the file cannot be read. -/
def read_file_content (fs : FS) (path : String) : Except String Text :=
  match fs path with
  | .readable c => .ok c
  | _ => .error "Failed to read file"

/-- scanner.rs UsageRuleSubFile: a named sub-fragment backed by a file. -/
structure UsageRuleSubFile where
  relative_path_name : Text
  full_path : String
deriving DecidableEq

/-- aggregator.rs PackageContent. -/
structure PackageContent where
  main_file : Option String
  sub_files : List UsageRuleSubFile
deriving DecidableEq

/-- aggregator.rs PackageContentInfo. -/
structure PackageContentInfo where
  name : Text
  content : PackageContent
deriving DecidableEq

/-- The one sub-fragment block of get_aggregated_content:
    format!("\n## \x7b\x7d\n\n\x7b\x7d", relative_path_name, content). -/
def subBlock (rel content : Text) : Text :=
  '\n' :: ("## ".toList ++ rel ++ "\n\n".toList ++ content)

/-- Reads the sub-fragment files of a package in order and renders each as a
    subBlock, mirroring the loop in get_aggregated_content. -/
def readSubParts (fs : FS) : List UsageRuleSubFile → Except String (List Text)
  | [] => .ok []
  | sf :: rest => do
      let c ← read_file_content fs sf.full_path
      let tl ← readSubParts fs rest
      pure (subBlock sf.relative_path_name c :: tl)

/-- aggregator.rs PackageContentInfo::get_aggregated_content: main fragment
    first (raw), then the sub-fragment blocks, joined with a blank line. -/
def get_aggregated_content (fs : FS) (pkg : PackageContentInfo) :
    Except String Text := do
  let mainParts ← match pkg.content.main_file with
    | some p => do
        let c ← read_file_content fs p
        pure [c]
    | none => pure ([] : List Text)
  let subParts ← readSubParts fs pkg.content.sub_files
  pure (List.intercalate "\n\n".toList (mainParts ++ subParts))

/-- The markdown link line built in the linked branch of
    format_package_section. -/
def linkLine (folder name : Text) : Text :=
  "[".toList ++ name ++ " usage rules](./".toList ++ folder ++ "/".toList ++
    name ++ "/".toList ++ name ++ ".md)".toList

/-- aggregator.rs format_package_section: a level-2 usage heading followed by
    either the aggregated content (inline) or a fixed link (linked). -/
def format_package_section (fs : FS) (pkg : PackageContentInfo)
    (link_folder_name : Option Text) : Except String Text := do
  let content ← match link_folder_name with
    | some folder => pure (linkLine folder pkg.name)
    | none => get_aggregated_content fs pkg
  pure ("## ".toList ++ pkg.name ++ " usage\n".toList ++ content)

/-- The first, fixed paragraph of generate_header in writer.rs. -/
def headerCore : Text :=
  ("IMPORTANT: Consult these usage rules early and often when working with the packages listed below. Before attempting to use any of these packages or to discover if you should use them, review their usage rules to understand the correct patterns, conventions, and best practices.\n\nThere are general rules for rust, cargo, etc also contained directly in this file.").toList

/-- The extra sentence generate_header appends in folder (linked) mode. -/
def linkedNote : Text :=
  ("\n\nEach package\x27s usage rules are contained in separate files within the linked folder. Please refer to the individual files for detailed usage instructions.").toList

/-- Modelled from the spec: the embedded static general-usage document.
    writer.rs includes it with include_str!("../base.md") but base.md is not
    among the provided sources; the spec describes it only as opaque,
    fixed boilerplate shipped with the tool, so a short stand-in text is used.
    No claim below depends on its exact contents. -/
def base_md : Text := ("General guidance for using Rust and Cargo dependencies.\n").toList

/-- writer.rs generate_header: boilerplate, the folder-mode sentence when in
    linked mode, then the embedded static document appended directly after
    a General Rust Usage heading. -/
def generate_header (use_folder_mode : Bool) : Text :=
  (if use_folder_mode then headerCore ++ linkedNote else headerCore) ++
    "## General Rust Usage\n\n".toList ++ base_md

/-- Formats every package section in input order, mirroring the loop in
    create_main_agents_file. -/
def formatSectionsM (fs : FS) (folderOpt : Option Text) :
    List PackageContentInfo → Except String (List Text)
  | [] => .ok []
  | p :: rest => do
      let s ← format_package_section fs p folderOpt
      let tl ← formatSectionsM fs folderOpt rest
      pure (s :: tl)

/-- The marker-wrapped generated section of create_main_agents_file:
    format!("<!-- cargo-usage-rules-start -->\n\n\x7b\x7d\n\x7b\x7d\n<!-- cargo-usage-rules-end -->\n\n", header, sections.join("\n\n")). -/
def genSection (header body : Text) : Text :=
  startMarker ++ nl2 ++ header ++ ['\n'] ++ body ++ ['\n'] ++ endMarker ++ nl2

/-- The preamble rule at the end of create_main_agents_file: an empty
    preamble yields the generated section alone, otherwise the preamble is
    prepended, separated by a blank line. -/
def composeDoc (pre gen : Text) : Text :=
  if pre.isEmpty then gen else pre ++ nl2 ++ gen

/-- writer.rs create_main_agents_file. -/
def create_main_agents_file (fs : FS) (packages : List PackageContentInfo)
    (preamble : Option Text) (link_folder_name : Option Text) :
    Except String Text := do
  let header := generate_header link_folder_name.isSome
  let sections ← formatSectionsM fs link_folder_name packages
  let generated := genSection header (List.intercalate nl2 sections)
  pure (match preamble with
        | some pre => composeDoc pre generated
        | none => generated)

/-- aggregator.rs extract_agents_md_preamble applied to file content that was
    successfully read: slice around the first occurrence of each marker when
    both are found, otherwise keep the whole content; every branch trims. -/
def extractPreambleFromContent (existing : Text) : Text :=
  match firstOccur startMarker existing, firstOccur endMarker existing with
  | some startPos, some endPos =>
      let before := existing.take startPos
      let after := existing.drop (endPos + endMarker.length)
      trim (trim before ++ trim after)
  | _, _ => trim existing

/-- The text extract_agents_md_preamble produces for each file state: the
    missing-file and failed-read branches both yield the empty preamble,
    because the source discards the read error with .ok(). -/
def preambleOfState : FileState → Text
  | .absent => []
  | .unreadable => []
  | .readable c => extractPreambleFromContent c

/-- aggregator.rs extract_agents_md_preamble: total over every file state;
    the Result is always Ok in the source, since the read error is dropped
    by fs::read_to_string(output_path).ok(). -/
def extract_agents_md_preamble (st : FileState) : Except String Text :=
  .ok (preambleOfState st)

/-- The sync pipeline from main.rs as far as the main output document is
    concerned: extract the preamble from the current output file, then
    compose the new document with Some(preamble).  folderOpt is the folder
    base name in linked mode (None for inline). -/
def sync_content (fs : FS) (prior : FileState)
    (packages : List PackageContentInfo) (folderOpt : Option Text) :
    Except String Text := do
  let preamble ← extract_agents_md_preamble prior
  create_main_agents_file fs packages (some preamble) folderOpt

/-! ### Model of the linked-mode copy phase (writer.rs write_linked) -/

/-- A destination path as a list of components, the result of PathBuf joins. -/
abbrev RPath := List Text

/-- Path::join splits a path-like string on the separator into components. -/
def splitSlash (s : Text) : List Text := s.splitOn '/'

/-- Index of the last dot of a file name, mirroring how Path::extension
    locates the extension. -/
def lastDotIdx (name : Text) : Option Nat :=
  match name.reverse.findIdx? (· = '.') with
  | some j => some (name.length - 1 - j)
  | none => none

/-- Path::with_extension("md") on one file-name component: replace the text
    after the last dot when an extension exists (a dot in first position
    marks a hidden file, not an extension), otherwise append ".md". -/
def with_extension_md (name : Text) : Text :=
  match lastDotIdx name with
  | some i => if i = 0 then name ++ ".md".toList else name.take i ++ ".md".toList
  | none => name ++ ".md".toList

/-- with_extension("md") applied to the final component of a path. -/
def withLastExtMd (p : RPath) : RPath :=
  match p.getLast? with
  | some last => p.dropLast ++ [with_extension_md last]
  | none => []

/-- Destination of one sub-fragment copy in write_linked:
    folder_path.join(name).join(relative_path_name).with_extension("md"). -/
def subDest (folder : RPath) (name rel : Text) : RPath :=
  withLastExtMd (folder ++ [name] ++ splitSlash rel)

/-- One filesystem operation issued by write_linked: create_dir_all, or a
    byte-for-byte fs::copy from a source file to a destination path. -/
inductive FsOp where
  | mkdirAll : RPath → FsOp
  | copy : String → RPath → FsOp
deriving DecidableEq

/-- The operations of the copy phase of write_linked, in program order: per
    package, create its directory, copy the main fragment (when present) to
    name.md, then per sub-fragment create the parent directory and copy to
    the with_extension("md") destination.  Package names from cargo contain
    no path separator, so the main destination keeps the name as one
    component. -/
def write_linked_ops (folder : RPath) (packages : List PackageContentInfo) :
    List FsOp :=
  packages.flatMap (fun pkg =>
    FsOp.mkdirAll (folder ++ [pkg.name]) ::
      ((match pkg.content.main_file with
        | some src => [FsOp.copy src (folder ++ [pkg.name, pkg.name ++ ".md".toList])]
        | none => []) ++
       pkg.content.sub_files.flatMap (fun sf =>
         let dest := subDest folder pkg.name sf.relative_path_name
         [FsOp.mkdirAll dest.dropLast, FsOp.copy sf.full_path dest])))

/-- Effect of one operation on a path-indexed store: a copy makes the
    destination hold exactly the bytes of the source. -/
def applyOp (readF : String → Option Text) (st : RPath → Option Text) :
    FsOp → (RPath → Option Text)
  | .mkdirAll _ => st
  | .copy src dst => fun p => if p = dst then readF src else st p

/-- Sequential effect of an operation list; the real writer aborts on the
    first failing operation (fail-fast), so this models the successful run. -/
def runOps (readF : String → Option Text) (st : RPath → Option Text) :
    List FsOp → (RPath → Option Text)
  | [] => st
  | op :: rest => runOps readF (applyOp readF st op) rest

/-- Destinations of the copy operations of a list, in order. -/
def copyDests (ops : List FsOp) : List RPath :=
  ops.filterMap (fun op => match op with
    | .copy _ d => some d
    | _ => none)

/-! ### Basic facts about occurrence search and counting -/

/-- Decidable equality for Except values, used to settle concrete runs. -/
instance {α β : Type} [DecidableEq α] [DecidableEq β] : DecidableEq (Except α β) := fun
  | .ok a, .ok b => if h : a = b then .isTrue (by rw [h]) else .isFalse (by simp [h])
  | .ok _, .error _ => .isFalse (by simp)
  | .error _, .ok _ => .isFalse (by simp)
  | .error a, .error b => if h : a = b then .isTrue (by rw [h]) else .isFalse (by simp [h])

theorem leadMatch_iff (pat s : Text) : leadMatch pat s = true ↔ pat <+: s := by
  induction pat generalizing s with
  | nil => simp [leadMatch]
  | cons a as ih =>
    cases s with
    | nil => simp [leadMatch]
    | cons b bs =>
      rw [List.cons_prefix_cons, ← ih bs]
      simp only [leadMatch, Bool.and_eq_true, beq_iff_eq]

theorem firstOccur_nil_pat (s : Text) : firstOccur [] s = some 0 := by
  cases s <;> simp [firstOccur, leadMatch]

theorem firstOccur_nil_str (pat : Text) (hne : pat ≠ []) :
    firstOccur pat [] = none := by
  simp [firstOccur, List.isEmpty_iff, hne]

theorem firstOccur_eq_none_iff (pat s : Text) :
    firstOccur pat s = none ↔ ∀ i, ¬ pat <+: s.drop i := by
  induction s with
  | nil =>
    by_cases h : pat = []
    · subst h; simp [firstOccur_nil_pat]
    · rw [firstOccur_nil_str pat h]
      simp [List.prefix_nil, h]
  | cons c rest ih =>
    simp only [firstOccur]
    cases h : leadMatch pat (c :: rest) with
    | true =>
      simp only [if_true]
      constructor
      · intro hcon; exact absurd hcon (by simp)
      · intro hall
        exact absurd ((leadMatch_iff _ _).1 h) (by simpa using hall 0)
    | false =>
      simp only [Bool.false_eq_true, if_false, Option.map_eq_none', ih]
      constructor
      · intro hall i
        cases i with
        | zero =>
          simp only [List.drop_zero]
          intro hp
          rw [← leadMatch_iff] at hp
          rw [h] at hp
          exact Bool.false_ne_true hp
        | succ j => simpa using hall j
      · intro hall j; simpa using hall (j + 1)

theorem firstOccur_within (pat s t : Text) (hinf : t <:+: s)
    (hnone : firstOccur pat s = none) : firstOccur pat t = none := by
  rw [firstOccur_eq_none_iff] at hnone ⊢
  intro i hp
  obtain ⟨u, v, rfl⟩ := hinf
  by_cases hi : i ≤ t.length
  · apply hnone (u.length + i)
    have hdrop : ((u ++ t) ++ v).drop (u.length + i) = t.drop i ++ v := by
      rw [List.append_assoc, List.drop_append_eq_append_drop,
        List.drop_eq_nil_of_le (by omega : u.length ≤ u.length + i),
        List.nil_append,
        show u.length + i - u.length = i by omega,
        List.drop_append_eq_append_drop,
        show i - t.length = 0 by omega, List.drop_zero]
    rw [hdrop]
    exact hp.trans (List.prefix_append _ _)
  · have hnil : t.drop i = [] := List.drop_eq_nil_of_le (by omega)
    rw [hnil] at hp
    have hpe : pat = [] := List.prefix_nil.mp hp
    subst hpe
    exact hnone 0 ( List.nil_prefix)

theorem countOccur_eq_zero_iff (pat s : Text) :
    countOccur pat s = 0 ↔ firstOccur pat s = none := by
  induction s with
  | nil =>
    by_cases h : pat.isEmpty <;> simp [countOccur, firstOccur, h]
  | cons c rest ih =>
    simp only [countOccur, firstOccur]
    by_cases h : leadMatch pat (c :: rest) <;>
      simp [h, ih, Option.map_eq_none']

theorem firstOccur_cons_notMem (pat : Text) (c : Char) (rest : Text)
    (hne : pat ≠ []) (hc : c ∉ pat) :
    firstOccur pat (c :: rest) = (firstOccur pat rest).map (· + 1) := by
  have hlm : leadMatch pat (c :: rest) = false := by
    cases pat with
    | nil => exact absurd rfl hne
    | cons p ps =>
      have hpc : (p == c) = false := by
        rw [beq_eq_false_iff_ne]
        rintro rfl
        exact hc (List.mem_cons_self _ _)
      simp [leadMatch, hpc]
  simp [firstOccur, hlm]

theorem countOccur_cons_notMem (pat : Text) (c : Char) (rest : Text)
    (hne : pat ≠ []) (hc : c ∉ pat) :
    countOccur pat (c :: rest) = countOccur pat rest := by
  have hlm : leadMatch pat (c :: rest) = false := by
    cases pat with
    | nil => exact absurd rfl hne
    | cons p ps =>
      have hpc : (p == c) = false := by
        rw [beq_eq_false_iff_ne]
        rintro rfl
        exact hc (List.mem_cons_self _ _)
      simp [leadMatch, hpc]
  simp [countOccur, hlm]

theorem prefix_append_cons_iff (pat X B : Text) (hnl : '\n' ∉ pat) :
    pat <+: X ++ '\n' :: B ↔ pat <+: X := by
  constructor
  · intro h
    rcases List.prefix_or_prefix_of_prefix h (List.prefix_append X ('\n' :: B))
      with h1 | h2
    · exact h1
    · obtain ⟨t, rfl⟩ := h2
      cases t with
      | nil => simpa using List.prefix_rfl
      | cons d t' =>
        rw [List.prefix_append_right_inj] at h
        have hd : d = '\n' := (List.cons_prefix_cons.mp h).1
        exact absurd (by simp [hd] : ('\n' : Char) ∈ X ++ d :: t') hnl
  · intro h; exact h.trans (List.prefix_append _ _)

theorem firstOccur_append_nl (pat A B : Text) (hne : pat ≠ [])
    (hnl : '\n' ∉ pat) :
    firstOccur pat (A ++ '\n' :: B) =
      match firstOccur pat A with
      | some i => some i
      | none => (firstOccur pat B).map (· + (A.length + 1)) := by
  induction A with
  | nil =>
    rw [List.nil_append, firstOccur_cons_notMem pat _ _ hne hnl,
      firstOccur_nil_str pat hne]
    simp
  | cons c A' ih =>
    have hcons : (c :: A') ++ '\n' :: B = c :: (A' ++ '\n' :: B) := rfl
    by_cases h : pat <+: (c :: A')
    · have h1 : leadMatch pat (c :: (A' ++ '\n' :: B)) = true := by
        rw [leadMatch_iff, ← hcons, prefix_append_cons_iff pat _ _ hnl]
        exact h
      have h2 : leadMatch pat (c :: A') = true := (leadMatch_iff _ _).2 h
      rw [hcons]
      simp [firstOccur, h1, h2]
    · have h1 : leadMatch pat (c :: (A' ++ '\n' :: B)) = false := by
        rw [← Bool.not_eq_true, leadMatch_iff, ← hcons,
          prefix_append_cons_iff pat _ _ hnl]
        exact h
      have h2 : leadMatch pat (c :: A') = false := by
        rw [← Bool.not_eq_true, leadMatch_iff]; exact h
      rw [hcons]
      simp only [firstOccur, h1, h2, Bool.false_eq_true, if_false, ih]
      cases hA : firstOccur pat A' <;> cases hB : firstOccur pat B <;>
        simp [Option.map_map, Function.comp] <;> omega

theorem countOccur_append_nl (pat A B : Text) (hne : pat ≠ [])
    (hnl : '\n' ∉ pat) :
    countOccur pat (A ++ '\n' :: B) = countOccur pat A + countOccur pat B := by
  induction A with
  | nil =>
    rw [List.nil_append, countOccur_cons_notMem pat _ _ hne hnl]
    have : countOccur pat [] = 0 := by
      simp [countOccur, List.isEmpty_iff, hne]
    rw [this]; omega
  | cons c A' ih =>
    have hcons : (c :: A') ++ '\n' :: B = c :: (A' ++ '\n' :: B) := rfl
    have hlm : leadMatch pat (c :: (A' ++ '\n' :: B)) = leadMatch pat (c :: A') := by
      rw [Bool.eq_iff_iff, leadMatch_iff, leadMatch_iff, ← hcons,
        prefix_append_cons_iff pat _ _ hnl]
    rw [hcons]
    simp only [countOccur, hlm, ih]
    omega

theorem firstOccur_self_append (pat rest : Text) :
    firstOccur pat (pat ++ rest) = some 0 := by
  cases hp : pat ++ rest with
  | nil =>
    have : pat = [] := by
      cases pat with
      | nil => rfl
      | cons a as => simp at hp
    simp [this, firstOccur_nil_pat]
  | cons c tl =>
    have hlm : leadMatch pat (c :: tl) = true := by
      rw [leadMatch_iff, ← hp]
      exact List.prefix_append _ _
    simp [firstOccur, hlm]
/-! ### Facts about trimming -/

theorem dropWhile_dropWhile {α : Type} (p : α → Bool) (l : List α) :
    List.dropWhile p (List.dropWhile p l) = List.dropWhile p l := by
  induction l with
  | nil => rfl
  | cons c rest ih =>
    by_cases h : p c
    · simp only [List.dropWhile_cons, h, if_true]
      exact ih
    · simp only [List.dropWhile_cons, h, if_false]
      simp [List.dropWhile_cons, h]

theorem ltrim_ltrim (l : Text) : ltrim (ltrim l) = ltrim l :=
  dropWhile_dropWhile _ l

theorem rtrim_rtrim (l : Text) : rtrim (rtrim l) = rtrim l := by
  simp [rtrim, List.rdropWhile, dropWhile_dropWhile]

theorem ltrim_of_rtrim (u : Text) (hu : ltrim u = u) :
    ltrim (rtrim u) = rtrim u := by
  cases hr : rtrim u with
  | nil => rfl
  | cons d w =>
    obtain ⟨t, ht0⟩ := List.rdropWhile_prefix Char.isWhitespace u
    have ht : rtrim u ++ t = u := ht0
    rw [hr] at ht
    have hu' : u = d :: (w ++ t) := by rw [← ht]; simp
    have hd : Char.isWhitespace d = false := by
      by_contra hcon
      have hdt : Char.isWhitespace d = true := by
        cases hdd : Char.isWhitespace d
        · exact absurd hdd hcon
        · rfl
      have : ltrim u = ltrim (w ++ t) := by
        rw [hu']
        simp [ltrim, List.dropWhile_cons, hdt]
      rw [hu] at this
      have hlen : u.length ≤ (w ++ t).length := by
        rw [this]
        exact (List.dropWhile_suffix Char.isWhitespace).length_le
      rw [hu'] at hlen
      simp only [List.length_cons] at hlen
      omega
    simp [ltrim, List.dropWhile_cons, hd]

theorem trim_trim (l : Text) : trim (trim l) = trim l := by
  show rtrim (ltrim (rtrim (ltrim l))) = rtrim (ltrim l)
  rw [ltrim_of_rtrim (ltrim l) (ltrim_ltrim l), rtrim_rtrim]

theorem ltrim_nl2_append (l : Text) : ltrim (nl2 ++ l) = ltrim l := by
  simp [ltrim, nl2, List.dropWhile_cons]

theorem rtrim_append_nl2 (l : Text) : rtrim (l ++ nl2) = rtrim l := by
  have h2 : l ++ nl2 = (l ++ ['\n']) ++ ['\n'] := by simp [nl2]
  show List.rdropWhile Char.isWhitespace (l ++ nl2) = List.rdropWhile Char.isWhitespace l
  rw [h2, List.rdropWhile_concat_pos _ _ '\n' (by decide),
    List.rdropWhile_concat_pos _ _ '\n' (by decide)]

theorem trim_append_nl2 (l : Text) : trim (l ++ nl2) = trim l := by
  show rtrim (ltrim (l ++ nl2)) = rtrim (ltrim l)
  rw [show ltrim (l ++ nl2) = List.dropWhile Char.isWhitespace (l ++ nl2) from rfl,
    List.dropWhile_append]
  by_cases h : (List.dropWhile Char.isWhitespace l).isEmpty
  · rw [if_pos h]
    have hl : ltrim l = [] := by
      rw [List.isEmpty_iff] at h
      exact h
    rw [show List.dropWhile Char.isWhitespace nl2 = ([] : Text) by decide, hl]
  · rw [if_neg h]
    exact rtrim_append_nl2 _

theorem trim_eq_self_ltrim (l : Text) (h : trim l = l) : ltrim l = l := by
  have h1 : ltrim l <:+ l := List.dropWhile_suffix _
  have h2 : (rtrim (ltrim l)) <+: ltrim l := List.rdropWhile_prefix _ _
  have hl1 : (ltrim l).length ≤ l.length := h1.length_le
  have hl2 : (rtrim (ltrim l)).length ≤ (ltrim l).length := h2.length_le
  have hl3 : (rtrim (ltrim l)).length = l.length := by rw [show rtrim (ltrim l) = trim l from rfl, h]
  exact h1.eq_of_length (by omega)

theorem trim_eq_self_rtrim (l : Text) (h : trim l = l) : rtrim l = l := by
  have := trim_eq_self_ltrim l h
  calc rtrim l = rtrim (ltrim l) := by rw [this]
    _ = l := h

theorem extract_trimmed (c : Text) :
    trim (extractPreambleFromContent c) = extractPreambleFromContent c := by
  cases h1 : firstOccur startMarker c <;> cases h2 : firstOccur endMarker c <;>
    simp [extractPreambleFromContent, h1, h2, trim_trim]

theorem preamble_trimmed (st : FileState) :
    trim (preambleOfState st) = preambleOfState st := by
  cases st <;> simp [preambleOfState, extract_trimmed] <;> rfl

theorem ltrim_insert (X T Y : Text) (hT : ltrim T = T) (hTne : T ≠ []) :
    ∃ X' : Text, ltrim (X ++ (T ++ Y)) = X' ++ (T ++ Y) := by
  rw [show ltrim (X ++ (T ++ Y)) = List.dropWhile Char.isWhitespace (X ++ (T ++ Y)) from rfl,
    List.dropWhile_append]
  by_cases h : (List.dropWhile Char.isWhitespace X).isEmpty
  · rw [if_pos h, List.dropWhile_append]
    have hTT : List.dropWhile Char.isWhitespace T = T := hT
    rw [hTT]
    have : T.isEmpty = false := by
      cases T with
      | nil => exact absurd rfl hTne
      | cons a as => rfl
    rw [this]
    exact ⟨[], by simp⟩
  · rw [if_neg h]
    exact ⟨ltrim X, rfl⟩

theorem rtrim_insert (X T Y : Text) (hT : rtrim T = T) (hTne : T ≠ []) :
    ∃ Y' : Text, rtrim ((X ++ T) ++ Y) = (X ++ T) ++ Y' := by
  have hTrev : ltrim T.reverse = T.reverse := by
    have : (List.dropWhile Char.isWhitespace T.reverse).reverse = T := hT
    calc ltrim T.reverse = ((List.dropWhile Char.isWhitespace T.reverse).reverse).reverse := by
          simp [ltrim]
      _ = T.reverse := by rw [this]
  obtain ⟨X', hX'⟩ := ltrim_insert Y.reverse T.reverse X.reverse hTrev (by simpa using hTne)
  refine ⟨X'.reverse, ?_⟩
  have hrev : ((X ++ T) ++ Y).reverse = Y.reverse ++ (T.reverse ++ X.reverse) := by
    simp
  calc rtrim ((X ++ T) ++ Y)
      = (ltrim (((X ++ T) ++ Y).reverse)).reverse := rfl
    _ = (ltrim (Y.reverse ++ (T.reverse ++ X.reverse))).reverse := by rw [hrev]
    _ = (X' ++ (T.reverse ++ X.reverse)).reverse := by rw [hX']
    _ = (X ++ T) ++ X'.reverse := by simp
theorem trim_insert (X T Y : Text) (hT : trim T = T) (hTne : T ≠ []) :
    ∃ X' Y' : Text, trim (X ++ T ++ Y) = X' ++ (T ++ Y') := by
  obtain ⟨X1, h1⟩ := ltrim_insert X T Y (trim_eq_self_ltrim T hT) hTne
  obtain ⟨Y1, h2⟩ := rtrim_insert X1 T Y (trim_eq_self_rtrim T hT) hTne
  refine ⟨X1, Y1, ?_⟩
  show rtrim (ltrim (X ++ T ++ Y)) = X1 ++ (T ++ Y1)
  rw [List.append_assoc, h1, ← List.append_assoc, h2, List.append_assoc]

theorem insertion_kept_by_trim (X T Y : Text) (hT : trim T = T) (hTne : T ≠ []) :
    T <:+: trim (X ++ T ++ Y) := by
  obtain ⟨X', Y', h⟩ := trim_insert X T Y hT hTne
  exact ⟨X', Y', by rw [h, List.append_assoc]⟩

theorem trim_within (l : Text) : trim l <:+: l := by
  obtain ⟨u, hu⟩ := List.rdropWhile_prefix Char.isWhitespace (ltrim l)
  obtain ⟨v, hv⟩ := List.dropWhile_suffix (l := l) Char.isWhitespace
  exact ⟨v, u, by rw [show trim l = List.rdropWhile Char.isWhitespace (ltrim l) from rfl,
    List.append_assoc, hu]; exact hv⟩

/-! ### Concrete facts about the fixed marker strings and the header -/

theorem startMarker_ne_nil : startMarker ≠ [] := by decide

theorem endMarker_ne_nil : endMarker ≠ [] := by decide

theorem nl_notMem_startMarker : '\n' ∉ startMarker := by decide

theorem nl_notMem_endMarker : '\n' ∉ endMarker := by decide

theorem endM_not_in_startM : firstOccur endMarker startMarker = none := by decide

theorem countOccur_startM_self : countOccur startMarker startMarker = 1 := by decide

theorem countOccur_endM_in_startM : countOccur endMarker startMarker = 0 := by decide

theorem countOccur_startM_tail : countOccur startMarker (endMarker ++ nl2) = 0 := by decide

theorem countOccur_endM_tail : countOccur endMarker (endMarker ++ nl2) = 1 := by decide

theorem trim_nl2 : trim nl2 = [] := by decide

set_option maxRecDepth 40000 in
theorem header_no_endM (b : Bool) :
    firstOccur endMarker (generate_header b) = none := by
  cases b <;> decide

set_option maxRecDepth 40000 in
theorem header_no_startM (b : Bool) :
    firstOccur startMarker (generate_header b) = none := by
  cases b <;> decide

/-! ### Position of the markers in a freshly generated document -/

theorem firstOccur_skip (pat A B : Text) (hne : pat ≠ []) (hnl : '\n' ∉ pat)
    (hA : firstOccur pat A = none) :
    firstOccur pat (A ++ '\n' :: B) =
      (firstOccur pat B).map (· + (A.length + 1)) := by
  rw [firstOccur_append_nl pat A B hne hnl, hA]

theorem genSection_shape (header body : Text) :
    genSection header body =
      startMarker ++ '\n' :: ('\n' ::
        (header ++ '\n' :: (body ++ '\n' :: (endMarker ++ nl2)))) := by
  simp [genSection, nl2]

theorem firstOccur_startM_genSection (header body : Text) :
    firstOccur startMarker (genSection header body) = some 0 := by
  rw [genSection_shape]
  exact firstOccur_self_append _ _

theorem firstOccur_endM_genSection (header body : Text)
    (hhe : firstOccur endMarker header = none)
    (hbe : firstOccur endMarker body = none) :
    firstOccur endMarker (genSection header body) =
      some (startMarker.length + 2 + header.length + 1 + body.length + 1) := by
  rw [genSection_shape,
    firstOccur_skip endMarker startMarker _ endMarker_ne_nil nl_notMem_endMarker
      endM_not_in_startM,
    firstOccur_cons_notMem endMarker _ _ endMarker_ne_nil nl_notMem_endMarker,
    firstOccur_skip endMarker header _ endMarker_ne_nil nl_notMem_endMarker hhe,
    firstOccur_skip endMarker body _ endMarker_ne_nil nl_notMem_endMarker hbe,
    firstOccur_self_append endMarker nl2]
  simp only [Option.map_some', Option.some.injEq]
  omega

theorem firstOccur_startM_shape (Z header body : Text)
    (hZs : firstOccur startMarker Z = none) :
    firstOccur startMarker (Z ++ nl2 ++ genSection header body) =
      some (Z.length + 2) := by
  have hshape : Z ++ nl2 ++ genSection header body =
      Z ++ '\n' :: ('\n' :: genSection header body) := by
    simp [nl2]
  rw [hshape,
    firstOccur_skip startMarker Z _ startMarker_ne_nil nl_notMem_startMarker hZs,
    firstOccur_cons_notMem startMarker _ _ startMarker_ne_nil nl_notMem_startMarker,
    firstOccur_startM_genSection]
  simp only [Option.map_some', Option.some.injEq]
  omega

theorem firstOccur_endM_shape (Z header body : Text)
    (hZe : firstOccur endMarker Z = none)
    (hhe : firstOccur endMarker header = none)
    (hbe : firstOccur endMarker body = none) :
    firstOccur endMarker (Z ++ nl2 ++ genSection header body) =
      some (Z.length + 2 +
        (startMarker.length + 2 + header.length + 1 + body.length + 1)) := by
  have hshape : Z ++ nl2 ++ genSection header body =
      Z ++ '\n' :: ('\n' :: genSection header body) := by
    simp [nl2]
  rw [hshape,
    firstOccur_skip endMarker Z _ endMarker_ne_nil nl_notMem_endMarker hZe,
    firstOccur_cons_notMem endMarker _ _ endMarker_ne_nil nl_notMem_endMarker,
    firstOccur_endM_genSection header body hhe hbe]
  simp only [Option.map_some', Option.some.injEq]
  omega

theorem extract_shape (Z header body : Text)
    (hZs : firstOccur startMarker Z = none)
    (hZe : firstOccur endMarker Z = none)
    (hhe : firstOccur endMarker header = none)
    (hbe : firstOccur endMarker body = none) :
    extractPreambleFromContent (Z ++ nl2 ++ genSection header body) = trim Z := by
  have hs := firstOccur_startM_shape Z header body hZs
  have he := firstOccur_endM_shape Z header body hZe hhe hbe
  have htake : (Z ++ nl2 ++ genSection header body).take (Z.length + 2) =
      Z ++ nl2 := by
    exact List.take_left' (by simp [nl2])
  have hsplit : Z ++ nl2 ++ genSection header body =
      (Z ++ nl2 ++ startMarker ++ nl2 ++ header ++ ['\n'] ++ body ++ ['\n'] ++
        endMarker) ++ nl2 := by
    simp [genSection, List.append_assoc]
  have hdrop : (Z ++ nl2 ++ genSection header body).drop
      (Z.length + 2 +
        (startMarker.length + 2 + header.length + 1 + body.length + 1) +
        endMarker.length) = nl2 := by
    rw [hsplit]
    exact List.drop_left' (by simp [nl2]; omega)
  simp only [extractPreambleFromContent, hs, he, htake, hdrop]
  rw [trim_append_nl2, trim_nl2, List.append_nil, trim_trim]

theorem extract_genSection (header body : Text)
    (hhe : firstOccur endMarker header = none)
    (hbe : firstOccur endMarker body = none) :
    extractPreambleFromContent (genSection header body) = [] := by
  have hs := firstOccur_startM_genSection header body
  have he := firstOccur_endM_genSection header body hhe hbe
  have hsplit : genSection header body =
      (startMarker ++ nl2 ++ header ++ ['\n'] ++ body ++ ['\n'] ++
        endMarker) ++ nl2 := by
    simp [genSection, List.append_assoc]
  have hdrop : (genSection header body).drop
      (startMarker.length + 2 + header.length + 1 + body.length + 1 +
        endMarker.length) = nl2 := by
    rw [hsplit]
    exact List.drop_left' (by simp [nl2]; omega)
  simp only [extractPreambleFromContent, hs, he, List.take_zero, hdrop]
  rw [trim_nl2]
  rfl
/-! ### Reductions of the writer pipeline -/

theorem create_ok (fs : FS) (pkgs : List PackageContentInfo) (pre : Option Text)
    (folderOpt : Option Text) (secs : List Text)
    (hsec : formatSectionsM fs folderOpt pkgs = .ok secs) :
    create_main_agents_file fs pkgs pre folderOpt = .ok
      (match pre with
       | some p => composeDoc p
           (genSection (generate_header folderOpt.isSome)
             (List.intercalate nl2 secs))
       | none => genSection (generate_header folderOpt.isSome)
           (List.intercalate nl2 secs)) := by
  unfold create_main_agents_file
  rw [hsec]
  rfl

theorem sync_ok (fs : FS) (prior : FileState) (pkgs : List PackageContentInfo)
    (folderOpt : Option Text) (secs : List Text)
    (hsec : formatSectionsM fs folderOpt pkgs = .ok secs) :
    sync_content fs prior pkgs folderOpt = .ok
      (composeDoc (preambleOfState prior)
        (genSection (generate_header folderOpt.isSome)
          (List.intercalate nl2 secs))) := by
  have h0 : sync_content fs prior pkgs folderOpt =
      create_main_agents_file fs pkgs (some (preambleOfState prior)) folderOpt := rfl
  rw [h0, create_ok fs pkgs _ folderOpt secs hsec]

theorem countOccur_skip (pat A B : Text) (hne : pat ≠ []) (hnl : '\n' ∉ pat)
    (hA : firstOccur pat A = none) :
    countOccur pat (A ++ '\n' :: B) = countOccur pat B := by
  rw [countOccur_append_nl pat A B hne hnl,
    (countOccur_eq_zero_iff pat A).2 hA, Nat.zero_add]

theorem countOccur_startM_genSection (header body : Text)
    (hh : firstOccur startMarker header = none)
    (hb : firstOccur startMarker body = none) :
    countOccur startMarker (genSection header body) = 1 := by
  rw [genSection_shape,
    countOccur_append_nl startMarker startMarker _ startMarker_ne_nil
      nl_notMem_startMarker,
    countOccur_startM_self,
    countOccur_cons_notMem startMarker _ _ startMarker_ne_nil nl_notMem_startMarker,
    countOccur_skip startMarker header _ startMarker_ne_nil nl_notMem_startMarker hh,
    countOccur_skip startMarker body _ startMarker_ne_nil nl_notMem_startMarker hb,
    countOccur_startM_tail]

theorem countOccur_endM_genSection (header body : Text)
    (hh : firstOccur endMarker header = none)
    (hb : firstOccur endMarker body = none) :
    countOccur endMarker (genSection header body) = 1 := by
  rw [genSection_shape,
    countOccur_skip endMarker startMarker _ endMarker_ne_nil nl_notMem_endMarker
      endM_not_in_startM,
    countOccur_cons_notMem endMarker _ _ endMarker_ne_nil nl_notMem_endMarker,
    countOccur_skip endMarker header _ endMarker_ne_nil nl_notMem_endMarker hh,
    countOccur_skip endMarker body _ endMarker_ne_nil nl_notMem_endMarker hb,
    countOccur_endM_tail]

theorem countOccur_composeDoc (pat pre gen : Text) (hne : pat ≠ [])
    (hnl : '\n' ∉ pat) (hpre : firstOccur pat pre = none) :
    countOccur pat (composeDoc pre gen) = countOccur pat gen := by
  unfold composeDoc
  by_cases h : pre.isEmpty
  · rw [if_pos h]
  · rw [if_neg h]
    have hshape : pre ++ nl2 ++ gen = pre ++ '\n' :: ('\n' :: gen) := by
      simp [nl2]
    rw [hshape, countOccur_skip pat pre _ hne hnl hpre,
      countOccur_cons_notMem pat _ _ hne hnl]
theorem extract_composeDoc (P header body : Text)
    (hPt : trim P = P)
    (hPs : firstOccur startMarker P = none)
    (hPe : firstOccur endMarker P = none)
    (hhe : firstOccur endMarker header = none)
    (hbe : firstOccur endMarker body = none) :
    extractPreambleFromContent (composeDoc P (genSection header body)) = P := by
  unfold composeDoc
  by_cases h : P.isEmpty
  · rw [if_pos h]
    have hP : P = [] := List.isEmpty_iff.mp h
    rw [extract_genSection header body hhe hbe, hP]
  · rw [if_neg h]
    rw [extract_shape P header body hPs hPe hhe hbe, hPt]

/-! ### Claim C1 -/

/-- C1 (amended): regenerating twice with identical package fragments yields a
    byte-identical output file, provided the preamble extracted in the first
    run contains no occurrence of either marker string and the joined package
    sections contain no occurrence of the end marker. -/
theorem c1_idempotent_amended (fs : FS) (prior : FileState)
    (pkgs : List PackageContentInfo) (folderOpt : Option Text)
    (secs : List Text) (o1 : Text)
    (hsec : formatSectionsM fs folderOpt pkgs = .ok secs)
    (hbe : firstOccur endMarker (List.intercalate nl2 secs) = none)
    (hps : firstOccur startMarker (preambleOfState prior) = none)
    (hpe : firstOccur endMarker (preambleOfState prior) = none)
    (h1 : sync_content fs prior pkgs folderOpt = .ok o1) :
    sync_content fs (.readable o1) pkgs folderOpt = .ok o1 := by
  have hrun := sync_ok fs prior pkgs folderOpt secs hsec
  rw [h1] at hrun
  have ho1 : o1 = composeDoc (preambleOfState prior)
      (genSection (generate_header folderOpt.isSome)
        (List.intercalate nl2 secs)) := by
    simpa using hrun
  rw [sync_ok fs (.readable o1) pkgs folderOpt secs hsec]
  have hextract : preambleOfState (.readable o1) = preambleOfState prior := by
    show extractPreambleFromContent o1 = _
    rw [ho1]
    exact extract_composeDoc _ _ _ (preamble_trimmed prior) hps hpe
      (header_no_endM _) hbe
  rw [hextract, ← ho1]

def c1FS : FS := fun p =>
  if p = "m1" then .readable ("Content 1".toList) else .absent

def c1Pkgs : List PackageContentInfo :=
  [⟨"p1".toList, ⟨some "m1", []⟩⟩]

def c1Run1 : Except String Text :=
  sync_content c1FS (.readable startMarker) c1Pkgs none

def c1Run2 : Except String Text :=
  c1Run1.bind (fun o1 => sync_content c1FS (.readable o1) c1Pkgs none)

set_option maxRecDepth 100000 in
/-- C1 counterexample: with a prior output file consisting of just the start
    marker (a content the spec itself calls malformed but the claim
    quantifies over), the second pipeline run produces a different output
    file than the first: the first keeps the stray marker as preamble, the
    second strips everything up to the generated section. -/
theorem c1_counterexample : c1Run2 ≠ c1Run1 ∧ c1Run1.isOk = true := by decide

def c1Secs : List Text := ["## p1 usage\nContent 1".toList]

def c1O1 : Text := (sync_content c1FS .absent c1Pkgs none).toOption.getD []

set_option maxRecDepth 100000 in
theorem c1_amended_witness :
    sync_content c1FS (.readable c1O1) c1Pkgs none = .ok c1O1 :=
  c1_idempotent_amended c1FS .absent c1Pkgs none c1Secs c1O1
    (by decide) (by decide) (by decide) (by decide) (by decide)
/-! ### Claim C3 -/

/-- C3 (amended): starting from a freshly generated document and inserting a
    text T inside the user-authored region before the start marker,
    regeneration keeps T verbatim as a contiguous substring and the new
    document holds exactly one marker-delimited generated section — provided
    T carries no leading or trailing whitespace (the merge trims the edges of
    the preamble region), the edited pre-marker region contains no occurrence
    of either marker string, and the joined package sections contain no
    occurrence of either marker string. -/
theorem c3_roundtrip_amended (fs : FS) (pkgs : List PackageContentInfo)
    (folderOpt : Option Text) (secs : List Text) (X T Y : Text)
    (hsec : formatSectionsM fs folderOpt pkgs = .ok secs)
    (hbs : firstOccur startMarker (List.intercalate nl2 secs) = none)
    (hbe : firstOccur endMarker (List.intercalate nl2 secs) = none)
    (hT : trim T = T) (hTne : T ≠ [])
    (hzs : firstOccur startMarker (X ++ T ++ Y) = none)
    (hze : firstOccur endMarker (X ++ T ++ Y) = none) :
    sync_content fs
        (.readable (X ++ T ++ Y ++ nl2 ++
          genSection (generate_header folderOpt.isSome)
            (List.intercalate nl2 secs)))
        pkgs folderOpt =
      .ok (composeDoc (trim (X ++ T ++ Y))
        (genSection (generate_header folderOpt.isSome)
          (List.intercalate nl2 secs)))
    ∧ T <:+: composeDoc (trim (X ++ T ++ Y))
        (genSection (generate_header folderOpt.isSome)
          (List.intercalate nl2 secs))
    ∧ countOccur startMarker (composeDoc (trim (X ++ T ++ Y))
        (genSection (generate_header folderOpt.isSome)
          (List.intercalate nl2 secs))) = 1
    ∧ countOccur endMarker (composeDoc (trim (X ++ T ++ Y))
        (genSection (generate_header folderOpt.isSome)
          (List.intercalate nl2 secs))) = 1 := by
  have hPz : extractPreambleFromContent (X ++ T ++ Y ++ nl2 ++
      genSection (generate_header folderOpt.isSome) (List.intercalate nl2 secs)) =
      trim (X ++ T ++ Y) :=
    extract_shape (X ++ T ++ Y) _ _ hzs hze (header_no_endM _) hbe
  have hPs : firstOccur startMarker (trim (X ++ T ++ Y)) = none :=
    firstOccur_within _ _ _ (trim_within _) hzs
  have hPe : firstOccur endMarker (trim (X ++ T ++ Y)) = none :=
    firstOccur_within _ _ _ (trim_within _) hze
  refine ⟨?_, ?_, ?_, ?_⟩
  · rw [sync_ok fs _ pkgs folderOpt secs hsec]
    have h1 : preambleOfState (.readable (X ++ T ++ Y ++ nl2 ++
        genSection (generate_header folderOpt.isSome)
          (List.intercalate nl2 secs))) = trim (X ++ T ++ Y) := hPz
    rw [h1]
  · obtain ⟨u, v, huv⟩ := insertion_kept_by_trim X T Y hT hTne
    have hne : (trim (X ++ T ++ Y)).isEmpty = false := by
      rw [← huv]
      cases hu : u ++ T ++ v with
      | nil =>
        have : T = [] := by
          rcases List.append_eq_nil.mp hu with ⟨h1, -⟩
          exact (List.append_eq_nil.mp h1).2
        exact absurd this hTne
      | cons a as => rfl
    unfold composeDoc
    rw [hne, if_neg Bool.false_ne_true]
    refine ⟨u, v ++ nl2 ++ genSection (generate_header folderOpt.isSome)
      (List.intercalate nl2 secs), ?_⟩
    rw [← huv]
    simp [List.append_assoc]
  · rw [countOccur_composeDoc startMarker _ _ startMarker_ne_nil
      nl_notMem_startMarker hPs]
    exact countOccur_startM_genSection _ _ (header_no_startM _) hbs
  · rw [countOccur_composeDoc endMarker _ _ endMarker_ne_nil
      nl_notMem_endMarker hPe]
    exact countOccur_endM_genSection _ _ (header_no_endM _) hbe

def c3FS : FS := fun p =>
  if p = "m3" then .readable ("C3 text".toList) else .absent

def c3Pkgs : List PackageContentInfo :=
  [⟨"p3".toList, ⟨some "m3", []⟩⟩]

def c3Out : Text := (sync_content c3FS .absent c3Pkgs none).toOption.getD []

def c3T : Text := "Z\t\t".toList

def c3Regen : Except String Text :=
  sync_content c3FS (.readable (c3T ++ c3Out)) c3Pkgs none

set_option maxRecDepth 100000 in
/-- C3 counterexample: the original output is well formed (it carries the
    start marker), yet inserting the text "Z\t\t" — two trailing tabs —
    before the start marker and regenerating yields an output that does not
    contain that text: the merge trims the trailing whitespace, so the
    inserted text is not preserved exactly. -/
theorem c3_counterexample :
    containsSub c3Out startMarker = true
    ∧ c3Regen.isOk = true
    ∧ containsSub (c3Regen.toOption.getD []) c3T = false := by decide

def c3Secs : List Text := ["## p3 usage\nC3 text".toList]

set_option maxRecDepth 100000 in
theorem c3_amended_witness :
    sync_content c3FS
        (.readable ("A".toList ++ "note".toList ++ "B".toList ++ nl2 ++
          genSection (generate_header (none : Option Text).isSome)
            (List.intercalate nl2 c3Secs)))
        c3Pkgs none =
      .ok (composeDoc (trim ("A".toList ++ "note".toList ++ "B".toList))
        (genSection (generate_header (none : Option Text).isSome)
          (List.intercalate nl2 c3Secs)))
    ∧ "note".toList <:+: composeDoc
        (trim ("A".toList ++ "note".toList ++ "B".toList))
        (genSection (generate_header (none : Option Text).isSome)
          (List.intercalate nl2 c3Secs))
    ∧ countOccur startMarker (composeDoc
        (trim ("A".toList ++ "note".toList ++ "B".toList))
        (genSection (generate_header (none : Option Text).isSome)
          (List.intercalate nl2 c3Secs))) = 1
    ∧ countOccur endMarker (composeDoc
        (trim ("A".toList ++ "note".toList ++ "B".toList))
        (genSection (generate_header (none : Option Text).isSome)
          (List.intercalate nl2 c3Secs))) = 1 :=
  c3_roundtrip_amended c3FS c3Pkgs none c3Secs "A".toList "note".toList "B".toList
    (by decide) (by decide) (by decide) (by decide) (by decide) (by decide)
    (by decide)
/-! ### Claim C2 -/

/-- C2 (amended): render of a package with main text M and sub-fragments
    [(n1,t1),(n2,t2)] joins the main part and the sub blocks with a blank
    line, but each sub block itself begins with an extra newline — the format
    string is "\n## \x7bname\x7d\n\n\x7btext\x7d" — so three newlines
    separate consecutive parts, not two. -/
theorem c2_render_amended (fs : FS) (name : Text) (pm p1 p2 : String)
    (M n1 t1 n2 t2 : Text)
    (hm : fs pm = .readable M) (h1 : fs p1 = .readable t1)
    (h2 : fs p2 = .readable t2) :
    get_aggregated_content fs ⟨name, ⟨some pm, [⟨n1, p1⟩, ⟨n2, p2⟩]⟩⟩ =
      .ok (M ++ "\n\n".toList ++
        ('\n' :: ("## ".toList ++ n1 ++ "\n\n".toList ++ t1)) ++ "\n\n".toList ++
        ('\n' :: ("## ".toList ++ n2 ++ "\n\n".toList ++ t2))) := by
  simp [get_aggregated_content, read_file_content, hm, h1, h2, readSubParts,
    subBlock, List.intercalate, List.intersperse, List.append_assoc]
  rfl

def c2FS : FS := fun p =>
  if p = "m" then .readable ("Main".toList)
  else if p = "s" then .readable ("Async content".toList)
  else .absent

def c2Pkg : PackageContentInfo :=
  ⟨"test".toList, ⟨some "m", [⟨"async".toList, "s"⟩]⟩⟩

set_option maxRecDepth 10000 in
/-- C2 counterexample: a package with main "Main" and one sub
    ("async", "Async content") renders with three newlines before the sub
    heading, not the two the claim states. -/
theorem c2_counterexample :
    get_aggregated_content c2FS c2Pkg =
      .ok ("Main\n\n\n## async\n\nAsync content".toList)
    ∧ get_aggregated_content c2FS c2Pkg ≠
      .ok ("Main\n\n## async\n\nAsync content".toList) := by decide

def c2wFS : FS := fun p =>
  if p = "mw" then .readable ("Main".toList)
  else if p = "s1" then .readable ("S one".toList)
  else if p = "s2" then .readable ("S two".toList)
  else .absent

theorem c2_amended_witness :
    get_aggregated_content c2wFS
        ⟨"tw".toList, ⟨some "mw", [⟨"a".toList, "s1"⟩, ⟨"b".toList, "s2"⟩]⟩⟩ =
      .ok ("Main".toList ++ "\n\n".toList ++
        ('\n' :: ("## ".toList ++ "a".toList ++ "\n\n".toList ++ "S one".toList)) ++
        "\n\n".toList ++
        ('\n' :: ("## ".toList ++ "b".toList ++ "\n\n".toList ++ "S two".toList))) :=
  c2_render_amended c2wFS "tw".toList "mw" "s1" "s2" "Main".toList
    "a".toList "S one".toList "b".toList "S two".toList
    (by decide) (by decide) (by decide)

/-! ### Claim C4 -/

def c4Rev : Text :=
  ("A<!-- cargo-usage-rules-end -->B<!-- cargo-usage-rules-start -->C").toList

set_option maxRecDepth 10000 in
/-- C4 counterexample: a file in which the first end marker precedes the
    first start marker (positions 1 and 32) is not treated as malformed:
    extract_agents_md_preamble does not return the whole trimmed content but
    applies the slice formula, duplicating the text between the markers. -/
theorem c4_counterexample :
    firstOccur endMarker c4Rev = some 1
    ∧ firstOccur startMarker c4Rev = some 32
    ∧ extractPreambleFromContent c4Rev ≠ trim c4Rev := by decide

/-- C4 (amended): the whole-file fallback fires exactly when one of the two
    markers is missing; when both markers are present — including in reversed
    order — the source makes no ordering check and applies the slice formula
    around the first occurrence of each marker. -/
theorem c4_malformed_amended :
    (∀ content : Text,
      firstOccur startMarker content = none ∨
        firstOccur endMarker content = none →
      extractPreambleFromContent content = trim content)
    ∧ (∀ (content : Text) (s e : Nat),
      firstOccur startMarker content = some s →
      firstOccur endMarker content = some e →
      extractPreambleFromContent content =
        trim (trim (content.take s) ++
          trim (content.drop (e + endMarker.length)))) := by
  constructor
  · intro content h
    rcases h with h | h
    · cases h2 : firstOccur endMarker content <;>
        simp [extractPreambleFromContent, h, h2]
    · cases h2 : firstOccur startMarker content <;>
        simp [extractPreambleFromContent, h, h2]
  · intro content s e hs he
    simp [extractPreambleFromContent, hs, he]

set_option maxRecDepth 10000 in
theorem c4_amended_witness :
    extractPreambleFromContent ("No markers here".toList) =
      trim ("No markers here".toList)
    ∧ extractPreambleFromContent c4Rev =
      trim (trim (c4Rev.take 32) ++ trim (c4Rev.drop (1 + endMarker.length))) :=
  ⟨c4_malformed_amended.1 ("No markers here".toList) (Or.inl (by decide)),
   c4_malformed_amended.2 c4Rev 32 1 (by decide) (by decide)⟩

/-! ### Claim C5 -/

/-- C5: evaluation at the failing input.  A file that exists but cannot be
    read makes extract_agents_md_preamble return Ok with the empty preamble —
    the read failure is silently discarded by .ok() — although the claim and
    the function doc comment state it fails with an IoError there.  A missing
    file also yields the empty preamble with no error, as claimed. -/
theorem c5_unreadable_evaluation :
    extract_agents_md_preamble .unreadable = .ok ([] : Text)
    ∧ extract_agents_md_preamble .absent = .ok ([] : Text) :=
  ⟨rfl, rfl⟩

/-! ### Claim C10 -/

/-- C10: extract_agents_md_preamble is total: it returns Ok on every file
    state, and a file that exists but cannot be read is treated exactly like
    an absent file, contributing the empty preamble. -/
theorem c10_extract_total :
    (∀ st : FileState, (extract_agents_md_preamble st).isOk = true)
    ∧ extract_agents_md_preamble .unreadable = extract_agents_md_preamble .absent :=
  ⟨fun st => by cases st <;> rfl, rfl⟩

/-! ### Claim C6 -/

/-- C6: when both markers occur and the first start marker precedes the first
    end marker, the extracted preamble is the trim of the concatenation of
    the trimmed text before the start marker and the trimmed text after the
    end of the end marker. -/
theorem c6_wellformed_formula (content : Text) (s e : Nat)
    (hs : firstOccur startMarker content = some s)
    (he : firstOccur endMarker content = some e)
    (hlt : s < e) :
    extractPreambleFromContent content =
      trim (trim (content.take s) ++
        trim (content.drop (e + endMarker.length))) := by
  simp [extractPreambleFromContent, hs, he]

def c6Content : Text :=
  ("Pre\n\n<!-- cargo-usage-rules-start -->\nOld\n<!-- cargo-usage-rules-end -->\nPost").toList

set_option maxRecDepth 10000 in
theorem c6_witness :
    extractPreambleFromContent c6Content =
      trim (trim (c6Content.take 5) ++
        trim (c6Content.drop (42 + endMarker.length))) :=
  c6_wellformed_formula c6Content 5 42 (by decide) (by decide) (by decide)
/-! ### Claim C7 -/

theorem except_bind_ok {a b g : Type} (x : b) (f : b → Except a g) :
    (Except.ok x >>= f) = f x := rfl

theorem except_bind_error {a b g : Type} (e : a) (f : b → Except a g) :
    ((Except.error e : Except a b) >>= f) = Except.error e := rfl

theorem except_map_ok {a b g : Type} (f : b → g) (x : b) :
    (f <$> (Except.ok x : Except a b)) = Except.ok (f x) := rfl

theorem except_map_error {a b g : Type} (f : b → g) (e : a) :
    (f <$> (Except.error e : Except a b)) = Except.error e := rfl

theorem except_pure {a b : Type} (x : b) :
    (pure x : Except a b) = Except.ok x := rfl

theorem formatSectionsM_spec (fs : FS) (folderOpt : Option Text)
    (pkgs : List PackageContentInfo) (secs : List Text)
    (hsec : formatSectionsM fs folderOpt pkgs = .ok secs) :
    secs.length = pkgs.length ∧
    ∀ i (hi : i < pkgs.length) (hi' : i < secs.length),
      format_package_section fs (pkgs.get ⟨i, hi⟩) folderOpt =
        .ok (secs.get ⟨i, hi'⟩) := by
  induction pkgs generalizing secs with
  | nil =>
    have hse : secs = [] := by
      simp [formatSectionsM] at hsec
      exact hsec
    subst hse
    exact ⟨rfl, fun i hi _ => absurd hi (by simp)⟩
  | cons p ps ih =>
    cases hf : format_package_section fs p folderOpt with
    | error e =>
      simp [formatSectionsM, hf, except_bind_error] at hsec
    | ok s =>
      cases ht : formatSectionsM fs folderOpt ps with
      | error e =>
        simp [formatSectionsM, hf, ht, except_bind_ok, except_map_error] at hsec
      | ok tl =>
        have hse : secs = s :: tl := by
          simp [formatSectionsM, hf, ht, except_bind_ok, except_map_ok] at hsec
          exact hsec.symm
        subst hse
        obtain ⟨hlen, hpt⟩ := ih tl ht
        refine ⟨by simp [hlen], ?_⟩
        intro i hi hi'
        cases i with
        | zero => simpa using hf
        | succ j =>
          simpa using hpt j (by simpa using hi) (by simpa using hi')

/-- C7: the composed main document is exactly the generated section when the
    preamble is empty or absent, and exactly preamble, blank line, generated
    section otherwise, where the generated section wraps the header and the
    blank-line-joined per-package sections (in input order) between the two
    markers with a trailing blank line. -/
theorem c7_document_structure (fs : FS) (pkgs : List PackageContentInfo)
    (pre : Option Text) (folderOpt : Option Text) (secs : List Text)
    (hsec : formatSectionsM fs folderOpt pkgs = .ok secs) :
    create_main_agents_file fs pkgs pre folderOpt = .ok
      (if (pre.getD []).isEmpty then
        startMarker ++ nl2 ++ generate_header folderOpt.isSome ++ ['\n'] ++
          List.intercalate nl2 secs ++ ['\n'] ++ endMarker ++ nl2
       else
        pre.getD [] ++ nl2 ++
          (startMarker ++ nl2 ++ generate_header folderOpt.isSome ++ ['\n'] ++
            List.intercalate nl2 secs ++ ['\n'] ++ endMarker ++ nl2))
    ∧ secs.length = pkgs.length
    ∧ ∀ i (hi : i < pkgs.length) (hi' : i < secs.length),
        format_package_section fs (pkgs.get ⟨i, hi⟩) folderOpt =
          .ok (secs.get ⟨i, hi'⟩) := by
  obtain ⟨hlen, hpt⟩ := formatSectionsM_spec fs folderOpt pkgs secs hsec
  refine ⟨?_, hlen, hpt⟩
  rw [create_ok fs pkgs pre folderOpt secs hsec]
  cases pre with
  | none => simp [genSection]
  | some p =>
    simp only [Option.getD_some]
    by_cases hp : p.isEmpty
    · simp [composeDoc, hp, genSection]
    · simp [composeDoc, hp, genSection]

def c7FS : FS := fun p =>
  if p = "m7" then .readable ("Seven".toList) else .absent

def c7Pkgs : List PackageContentInfo :=
  [⟨"p7".toList, ⟨some "m7", []⟩⟩]

def c7Secs : List Text := ["## p7 usage\nSeven".toList]

set_option maxRecDepth 10000 in
theorem c7_witness :
    create_main_agents_file c7FS c7Pkgs (some ("Hello".toList)) none = .ok
      (if (((some ("Hello".toList)).getD ([] : Text)).isEmpty) then
        startMarker ++ nl2 ++ generate_header (none : Option Text).isSome ++
          ['\n'] ++ List.intercalate nl2 c7Secs ++ ['\n'] ++ endMarker ++ nl2
       else
        (some ("Hello".toList)).getD ([] : Text) ++ nl2 ++
          (startMarker ++ nl2 ++ generate_header (none : Option Text).isSome ++
            ['\n'] ++ List.intercalate nl2 c7Secs ++ ['\n'] ++ endMarker ++ nl2))
    ∧ c7Secs.length = c7Pkgs.length
    ∧ ∀ i (hi : i < c7Pkgs.length) (hi' : i < c7Secs.length),
        format_package_section c7FS (c7Pkgs.get ⟨i, hi⟩) none =
          .ok (c7Secs.get ⟨i, hi'⟩) :=
  c7_document_structure c7FS c7Pkgs (some ("Hello".toList)) none c7Secs (by decide)
/-! ### Claim C8 -/

theorem intercalate_cons_head (s a : Text) (l : List Text) :
    ∃ t, List.intercalate s (a :: l) = a ++ t := by
  cases l with
  | nil => exact ⟨[], by simp [List.intercalate]⟩
  | cons b l' =>
    refine ⟨s ++ List.intercalate s (b :: l'), ?_⟩
    simp [List.intercalate, List.intersperse]

/-- C8 (amended): in Linked mode format_package_section returns exactly the
    fixed heading-plus-link string built only from the folder name and the
    package name — so it never reads fragment content and is independent of
    the filesystem — while Inline mode prepends the heading to the rendered
    content, which contains the main fragment text verbatim (as a prefix).
    The linked section can still contain the fragment text in the degenerate
    case where that text is a substring of the fixed link line (for example
    the fragment "usage"), so plain never-containment does not hold. -/
theorem c8_format_amended :
    (∀ (fs : FS) (pkg : PackageContentInfo) (folder : Text),
      format_package_section fs pkg (some folder) =
        .ok ("## ".toList ++ pkg.name ++ " usage\n".toList ++
          ("[".toList ++ pkg.name ++ " usage rules](./".toList ++ folder ++
            "/".toList ++ pkg.name ++ "/".toList ++ pkg.name ++ ".md)".toList)))
    ∧ (∀ (fs : FS) (pkg : PackageContentInfo) (r : Text),
        get_aggregated_content fs pkg = .ok r →
        format_package_section fs pkg none =
          .ok ("## ".toList ++ pkg.name ++ " usage\n".toList ++ r))
    ∧ (∀ (fs : FS) (pkg : PackageContentInfo) (pm : String) (M r : Text),
        pkg.content.main_file = some pm → fs pm = .readable M →
        get_aggregated_content fs pkg = .ok r → M <+: r) := by
  refine ⟨?_, ?_, ?_⟩
  · intro fs pkg folder
    rfl
  · intro fs pkg r h
    simp [format_package_section, h, except_bind_ok]
  · intro fs pkg pm M r hm hfs hr
    simp only [get_aggregated_content, hm, read_file_content, hfs,
      except_bind_ok] at hr
    cases hsub : readSubParts fs pkg.content.sub_files with
    | error e =>
      rw [hsub] at hr
      exact absurd hr (by simp [except_bind_error])
    | ok subs =>
      rw [hsub] at hr
      have hr' : List.intercalate ("\n\n".toList) (M :: subs) = r := by
        simpa [except_pure, except_bind_ok] using hr
      obtain ⟨t, htl⟩ := intercalate_cons_head ("\n\n".toList) M subs
      exact ⟨t, by rw [← hr', htl]⟩

def c8FS : FS := fun p =>
  if p = "m8" then .readable ("usage".toList) else .absent

def c8Pkg : PackageContentInfo := ⟨"p8".toList, ⟨some "m8", []⟩⟩

set_option maxRecDepth 10000 in
/-- C8 counterexample: the linked-mode section for a package whose fragment
    text is "usage" contains that fragment text as a substring even though
    the branch never reads it — the claim that the linked section never
    contains the raw fragment text fails on such fragments. -/
theorem c8_counterexample :
    c8FS "m8" = .readable ("usage".toList)
    ∧ containsSub
        ((format_package_section c8FS c8Pkg (some ("usage_rules".toList))).toOption.getD [])
        ("usage".toList) = true := by decide

theorem c8_amended_witness :
    format_package_section c8FS c8Pkg (some ("usage_rules".toList)) =
      .ok ("## ".toList ++ c8Pkg.name ++ " usage\n".toList ++
        ("[".toList ++ c8Pkg.name ++ " usage rules](./".toList ++
          "usage_rules".toList ++ "/".toList ++ c8Pkg.name ++ "/".toList ++
          c8Pkg.name ++ ".md)".toList))
    ∧ "usage".toList <+: "usage".toList :=
  ⟨c8_format_amended.1 c8FS c8Pkg ("usage_rules".toList),
   c8_format_amended.2.2 c8FS c8Pkg "m8" ("usage".toList) ("usage".toList)
     rfl (by decide) (by decide)⟩
/-! ### Claim C9 -/

theorem mem_copyDests (src : String) (dst : RPath) (ops : List FsOp)
    (h : FsOp.copy src dst ∈ ops) : dst ∈ copyDests ops := by
  simp only [copyDests, List.mem_filterMap]
  exact ⟨FsOp.copy src dst, h, rfl⟩

theorem runOps_preserve (readF : String → Option Text) (ops : List FsOp)
    (dst : RPath) (h : (copyDests ops).count dst = 0) :
    ∀ st, runOps readF st ops dst = st dst := by
  induction ops with
  | nil => intro st; rfl
  | cons op rest ih =>
    intro st
    cases op with
    | mkdirAll p =>
      rw [runOps]
      exact ih (by simpa [copyDests] using h) _
    | copy s d =>
      have hcd : copyDests (FsOp.copy s d :: rest) = d :: copyDests rest := rfl
      rw [hcd, List.count_cons] at h
      have hd : d ≠ dst := by
        intro hdd
        subst hdd
        simp at h
      have hrest : (copyDests rest).count dst = 0 := by omega
      rw [runOps, ih hrest]
      simp [applyOp, Ne.symm hd]

theorem runOps_copy_unique (readF : String → Option Text) (ops : List FsOp)
    (src : String) (dst : RPath)
    (hmem : FsOp.copy src dst ∈ ops)
    (huniq : (copyDests ops).count dst = 1) :
    ∀ st, runOps readF st ops dst = readF src := by
  induction ops with
  | nil => cases hmem
  | cons op rest ih =>
    intro st
    rcases List.mem_cons.mp hmem with heq | hmem'
    · subst heq
      have hcd : copyDests (FsOp.copy src dst :: rest) = dst :: copyDests rest := rfl
      rw [hcd, List.count_cons] at huniq
      have hrest : (copyDests rest).count dst = 0 := by
        simp at huniq
        omega
      rw [runOps, runOps_preserve readF rest dst hrest]
      simp [applyOp]
    · cases op with
      | mkdirAll p =>
        rw [runOps]
        exact ih hmem' (by simpa [copyDests] using huniq) _
      | copy s2 d2 =>
        have hcd : copyDests (FsOp.copy s2 d2 :: rest) = d2 :: copyDests rest := rfl
        rw [hcd, List.count_cons] at huniq
        by_cases hd : d2 = dst
        · subst hd
          have hpos : 0 < (copyDests rest).count d2 :=
            List.count_pos_iff.mpr (mem_copyDests src d2 rest hmem')
          simp at huniq
          omega
        · have hrest : (copyDests rest).count dst = 1 := by
            simp [hd] at huniq
            omega
          rw [runOps]
          exact ih hmem' hrest _

/-- One fragment file is copied byte-for-byte to a destination: a copy
    operation from the source to the destination is among the issued
    operations, and whenever the destination receives exactly one copy, the
    final store holds at the destination precisely the bytes read from the
    source. -/
def CopiedTo (ops : List FsOp) (src : String) (dst : RPath) : Prop :=
  FsOp.copy src dst ∈ ops ∧
  ∀ (readF : String → Option Text) (st : RPath → Option Text),
    (copyDests ops).count dst = 1 → runOps readF st ops dst = readF src

/-- C9 (amended): for every package processed by write_linked, its directory
    under the folder is created; a main fragment is copied byte-for-byte to
    folder/name/name.md; and every sub-fragment has its destination parent
    directory created and its backing file copied byte-for-byte to
    folder/name/stem.md, where stem is the relative name with an existing
    extension in its final component replaced (Path::with_extension \x22md\x22)
    — equal to relativeName.md exactly when the final component carries no
    extension. -/
theorem c9_linked_layout_amended (folder : RPath)
    (pkgs : List PackageContentInfo) (pkg : PackageContentInfo)
    (hmem : pkg ∈ pkgs) :
    FsOp.mkdirAll (folder ++ [pkg.name]) ∈ write_linked_ops folder pkgs
    ∧ (∀ src, pkg.content.main_file = some src →
        CopiedTo (write_linked_ops folder pkgs) src
          (folder ++ [pkg.name, pkg.name ++ ".md".toList]))
    ∧ (∀ sf ∈ pkg.content.sub_files,
        FsOp.mkdirAll (subDest folder pkg.name sf.relative_path_name).dropLast ∈
          write_linked_ops folder pkgs
        ∧ CopiedTo (write_linked_ops folder pkgs) sf.full_path
            (subDest folder pkg.name sf.relative_path_name)) := by
  refine ⟨?_, ?_, ?_⟩
  · simp only [write_linked_ops, List.mem_flatMap]
    exact ⟨pkg, hmem, by simp⟩
  · intro src hsrc
    have hin : FsOp.copy src (folder ++ [pkg.name, pkg.name ++ ".md".toList]) ∈
        write_linked_ops folder pkgs := by
      simp only [write_linked_ops, List.mem_flatMap]
      exact ⟨pkg, hmem, by simp [hsrc]⟩
    exact ⟨hin, fun readF st hu => runOps_copy_unique readF _ _ _ hin hu st⟩
  · intro sf hsf
    have hin1 : FsOp.mkdirAll
        (subDest folder pkg.name sf.relative_path_name).dropLast ∈
        write_linked_ops folder pkgs := by
      simp only [write_linked_ops, List.mem_flatMap]
      refine ⟨pkg, hmem, ?_⟩
      simp only [List.mem_cons, List.mem_append, List.mem_flatMap]
      right; right
      exact ⟨sf, hsf, by simp⟩
    have hin2 : FsOp.copy sf.full_path
        (subDest folder pkg.name sf.relative_path_name) ∈
        write_linked_ops folder pkgs := by
      simp only [write_linked_ops, List.mem_flatMap]
      refine ⟨pkg, hmem, ?_⟩
      simp only [List.mem_cons, List.mem_append, List.mem_flatMap]
      right; right
      exact ⟨sf, hsf, by simp⟩
    exact ⟨hin1, hin2, fun readF st hu =>
      runOps_copy_unique readF _ _ _ hin2 hu st⟩

def c9Folder : RPath := ["usage_rules".toList]

def c9Pkg : PackageContentInfo :=
  ⟨"pkg".toList, ⟨some "m9", [⟨"notes.v2".toList, "s9"⟩]⟩⟩

set_option maxRecDepth 10000 in
/-- C9 counterexample: the sub-fragment with relative name "notes.v2" is
    copied to usage_rules/pkg/notes.md — Path::with_extension("md") replaces
    the existing ".v2" extension — and no operation copies anything to the
    claimed destination usage_rules/pkg/notes.v2.md. -/
theorem c9_counterexample :
    FsOp.copy "s9" (c9Folder ++ ["pkg".toList, "notes.md".toList]) ∈
      write_linked_ops c9Folder [c9Pkg]
    ∧ (c9Folder ++ ["pkg".toList, "notes.v2.md".toList]) ∉
      copyDests (write_linked_ops c9Folder [c9Pkg]) := by decide

def c9wPkg : PackageContentInfo :=
  ⟨"pw".toList, ⟨some "mw", [⟨"async".toList, "sw"⟩]⟩⟩

theorem c9_amended_witness :
    FsOp.mkdirAll (c9Folder ++ [c9wPkg.name]) ∈ write_linked_ops c9Folder [c9wPkg]
    ∧ (∀ src, c9wPkg.content.main_file = some src →
        CopiedTo (write_linked_ops c9Folder [c9wPkg]) src
          (c9Folder ++ [c9wPkg.name, c9wPkg.name ++ ".md".toList]))
    ∧ (∀ sf ∈ c9wPkg.content.sub_files,
        FsOp.mkdirAll (subDest c9Folder c9wPkg.name sf.relative_path_name).dropLast ∈
          write_linked_ops c9Folder [c9wPkg]
        ∧ CopiedTo (write_linked_ops c9Folder [c9wPkg]) sf.full_path
            (subDest c9Folder c9wPkg.name sf.relative_path_name)) :=
  c9_linked_layout_amended c9Folder [c9wPkg] c9wPkg (by decide)
